import Mathlib

/-!
# go-httpdummy: the request-behaviour handlers of `web/router.go`

A shallow embedding of `New`, `SlowRequest` and `PostSink`.

* Go `int` and `time.Duration` values are modelled by `Int` (nanoseconds for
  durations).  Go's `/` and `%` truncate towards zero, so they are `Int.tdiv`
  and `Int.tmod`.  None of the arithmetic below can leave the 64-bit range for
  inputs the handlers can receive (`interval / 10`, `size / 10240`, a byte
  counter bounded by the body length), so no wrap-around is inserted.
* A handler acts on a `State`: the three metric instruments, a logical clock
  and the trace of the actions it performed on the gin context, in order.
* Library calls whose code is outside the repository (`time.ParseDuration`,
  `Duration.String`, `strconv.Atoi`) and the behaviour of the peer (whether a
  write fails, how long a sleep really takes) are fields of `Env`.
-/

namespace HttpDummy

/-- Error value returned by `body.Read`: end-of-file or any other failure. -/
inductive ReadErr where
  | eof
  | other
  deriving DecidableEq, Repr

/-- Outcome of one `body.Read(buf)` call: the byte count `n` and the error. -/
structure ReadResult where
  n : Nat
  err : Option ReadErr
  deriving DecidableEq, Repr

/-- One action of a handler or middleware, as seen on the connection, the
clock or the metrics registry. -/
inductive Event where
  /-- The call `c.HTML(code, name, obj)`; `obj` lists the `gin.H` entries in source order. -/
  | html (code : Nat) (name : String) (obj : List (String × String))
  /-- The call `c.String(code, body)`. -/
  | string (code : Nat) (body : String)
  /-- The call `c.Writer.Write(data)`. -/
  | write (data : String)
  /-- The call `c.Writer.Flush()`. -/
  | flush
  /-- The call `time.Sleep(d)`. -/
  | sleep (d : Int)
  /-- The call `body.Read(buf)` together with what it returned. -/
  | read (r : ReadResult)
  /-- The deferred `body.Close()`. -/
  | close
  /-- The call `inflightReq.Update(delta)`. -/
  | inflightUpdate (delta : Int)
  /-- The call `errReq.Update(delta)`. -/
  | errUpdate (delta : Nat)
  /-- The call `rateReq.Update(delta)`. -/
  | rateUpdate (delta : Nat)
  /-- Ginzap reads the start time before calling `c.Next()`. -/
  | logStart
  /-- Ginzap emits its request record after `c.Next()` returned. -/
  | logRecord
  /-- The recovery middleware registers its deferred `recover`. -/
  | recoverDefer
  /-- The recovery middleware caught a panic and aborts with status 500. -/
  | abort500
  deriving DecidableEq, Repr

/-- What the handlers take from outside the repository. -/
structure Env where
  /-- The function `time.ParseDuration`: the error text, or the duration in nanoseconds. -/
  parseDuration : String → Except String Int
  /-- The method `time.Duration.String`. -/
  durationString : Int → String
  /-- The integer returned by `strconv.Atoi` (its error is discarded by `PostSink`). -/
  atoiValue : String → Int
  /-- Whether the `k`-th call (from 0) of `c.Writer.Write` returns an error. -/
  writeErr : Nat → Bool
  /-- By how many nanoseconds the `k`-th call (from 0) of `time.Sleep` and the work
  up to the next look at the clock exceed the requested duration. -/
  overrun : Nat → Nat

/-- The metrics registry, the clock and the trace of actions. -/
structure State where
  /-- Value of the gauge `conn.inflight`. -/
  inflight : Int
  /-- Value of the counter `conn.err`. -/
  err : Nat
  /-- Number of events fed to the rate `conn.rate`. -/
  rate : Nat
  /-- Clock, in nanoseconds. -/
  now : Int
  /-- Number of `time.Sleep` calls so far. -/
  sleeps : Nat
  /-- Number of `c.Writer.Write` calls so far. -/
  writes : Nat
  /-- Actions performed so far, oldest first. -/
  trace : List Event
  deriving DecidableEq, Repr

/-- The part of the gin context the two handlers read. -/
structure Request where
  /-- The value of `c.Param("duration")`, empty when the route has no such parameter. -/
  duration : String
  /-- The value of `c.Request.Header.Get("content-length")`. -/
  contentLength : String
  /-- The successive outcomes of `body.Read`; once they are used up every further
  read returns `(0, io.EOF)`. -/
  body : List ReadResult

/-- Append actions to the trace. -/
def State.emit (st : State) (es : List Event) : State :=
  { st with trace := st.trace ++ es }

/-- The call `inflightReq.Update(delta)` on the relative gauge. -/
def inflightReqUpdate (delta : Int) (st : State) : State :=
  { st with inflight := st.inflight + delta, trace := st.trace ++ [Event.inflightUpdate delta] }

/-- The call `errReq.Update(delta)` on the counter. -/
def errReqUpdate (delta : Nat) (st : State) : State :=
  { st with err := st.err + delta, trace := st.trace ++ [Event.errUpdate delta] }

/-- The call `rateReq.Update(delta)` on the rate. -/
def rateReqUpdate (delta : Nat) (st : State) : State :=
  { st with rate := st.rate + delta, trace := st.trace ++ [Event.rateUpdate delta] }

/-- The call `time.Sleep(d)`: returns at once when `d ≤ 0`, otherwise after at
least `d`. -/
def timeSleep (env : Env) (d : Int) (st : State) : State :=
  { st with
    now := st.now + max d 0 + env.overrun st.sleeps
    sleeps := st.sleeps + 1
    trace := st.trace ++ [Event.sleep d] }

/-- The call `c.Writer.Write(data)`; the Boolean tells whether it returned an error. -/
def writerWrite (env : Env) (data : String) (st : State) : State × Bool :=
  ({ st with writes := st.writes + 1, trace := st.trace ++ [Event.write data] },
   env.writeErr st.writes)

/-- The constant `time.Second`, in nanoseconds. -/
def second : Int := 1000000000

/-- Lines 126-129 of `router.go`: the pacing between two keep-alive chunks. -/
def waitInterval (interval : Int) : Int :=
  let waitInterval := second * 10
  if interval < waitInterval * 10 then interval.tdiv 10 else waitInterval

/-- The `for { select { ... } }` loop of `SlowRequest` (lines 139-153).  `endAt` is
the instant at which the channel of `time.After(interval)` becomes readable; the
`select` takes the `end` case exactly when the clock has reached it.  `fuel`
bounds the number of iterations; `none` means the bound was hit. -/
def slowLoop (env : Env) (endAt waitInterval : Int) : Nat → State → Option State
  | 0, _ => none
  | fuel + 1, st =>
    if endAt ≤ st.now then
      some (st.emit [Event.html 200 "slow_post.tmpl" []])
    else
      let st := timeSleep env waitInterval st
      let (st, err) := writerWrite env "!\n" st
      let st := st.emit [Event.flush]
      if err then
        some (errReqUpdate 1 st)
      else
        slowLoop env endAt waitInterval fuel st

/-- The handler `WebBackend.SlowRequest` (lines 115-154).  The deferred
`inflightReq.Update(-1)` runs when the body returns. -/
def SlowRequest (env : Env) (fuel : Nat) (req : Request) (st : State) : Option State :=
  match env.parseDuration req.duration with
  | .error err =>
    some (st.emit [Event.html 400 "error.tmpl" [("msg", "bad time: " ++ err)]])
  | .ok interval =>
    let st := inflightReqUpdate 1 st
    let waitInterval := waitInterval interval
    let st := st.emit [Event.html 200 "slow_pre.tmpl"
      [("duration", env.durationString interval),
       ("interval", env.durationString waitInterval)]]
    let st := st.emit [Event.flush]
    let endAt := st.now + interval
    (slowLoop env endAt waitInterval fuel st).map (inflightReqUpdate (-1))

/-- The un-paced read loop of `PostSink` (lines 194-200): `readCtr` is returned
together with the state.  The loop runs while `err == nil` and leaves at the
first read of zero bytes. -/
def plainLoop : List ReadResult → Int → State → Int × State
  | [], readCtr, st =>
    let st := st.emit [Event.read ⟨0, some ReadErr.eof⟩]
    (readCtr + 0, st)
  | r :: rest, readCtr, st =>
    let st := st.emit [Event.read r]
    let readCtr := readCtr + r.n
    if r.n = 0 then
      (readCtr, st)
    else if r.err.isSome then
      (readCtr, st)
    else
      plainLoop rest readCtr st

/-- The text `fmt.Sprintf("progress %d/%d\n", readCtr, size)`. -/
def progressLine (readCtr size : Int) : String :=
  "progress " ++ toString readCtr ++ "/" ++ toString size ++ "\n"

/-- The paced read loop of `PostSink` (lines 178-192), entered with the current
values of `idx` and `readCtr`. -/
def pacedLoop (env : Env) (interval size divider : Int) :
    List ReadResult → Int → Int → State → Int × State
  | [], _, readCtr, st =>
    let st := st.emit [Event.read ⟨0, some ReadErr.eof⟩]
    (readCtr + 0, st)
  | r :: rest, idx, readCtr, st =>
    let idx := idx + 1
    let st := st.emit [Event.read r]
    let readCtr := readCtr + r.n
    if r.n = 0 then
      (readCtr, st)
    else
      let st :=
        if idx.tmod divider = 0 then
          ((writerWrite env (progressLine readCtr size) st).1).emit [Event.flush]
        else st
      let st := timeSleep env interval st
      if r.err.isSome then
        (readCtr, st)
      else
        pacedLoop env interval size divider rest idx readCtr st

/-- Lines 169-173: the number of reads between two progress reports. -/
def divider (size : Int) : Int :=
  let divider := size.tdiv (10 * 1024)
  if divider < 1 then 1 else divider

/-- The handler `WebBackend.PostSink` (lines 156-205).  On a parse error
`time.ParseDuration` returns the zero duration, which the handler keeps using
when the parameter is empty. -/
def PostSink (env : Env) (req : Request) (st : State) : State :=
  let duration := req.duration
  let parsed := env.parseDuration duration
  let interval : Int := match parsed with
    | .ok i => i
    | .error _ => 0
  match parsed, decide (0 < duration.length) with
  | .error err, true =>
    st.emit [Event.html 400 "error.tmpl" [("msg", "bad time: " ++ err)]]
  | _, _ =>
    let size := env.atoiValue req.contentLength
    let divider := divider size
    let (readCtr, st) :=
      if 0 < interval then
        pacedLoop env interval size divider req.body 0 0 st
      else
        plainLoop req.body 0 st
    let st := st.emit [Event.string 200 ("received " ++ toString readCtr ++ " bytes\n")]
    st.emit [Event.close]

/-- The functions gin can put in a handler chain: the three middlewares used by
`New` and the route handlers it registers. -/
inductive HandlerFunc where
  | ginzap
  | recovery
  | rateTick
  | healthcheck
  | metrics
  | static
  | index
  | slowRequest
  | postSink
  | notFound
  | routes
  deriving DecidableEq, Repr

/-- The part of `gin.Engine` that `New` fills: the middleware of the root group,
the registered routes with the chain each one got at registration, and the
chain used when no route matches. -/
structure Engine where
  Handlers : List HandlerFunc
  trees : List (String × String × List HandlerFunc)
  noRoute : List HandlerFunc
  allNoRoute : List HandlerFunc
  deriving DecidableEq, Repr

/-- The call `gin.New()`. -/
def ginNew : Engine :=
  { Handlers := [], trees := [], noRoute := [], allNoRoute := [] }

/-- The method `Engine.Use`: appends to the group's handlers and rebuilds the 404 chain. -/
def Engine.Use (r : Engine) (middleware : HandlerFunc) : Engine :=
  let hs := r.Handlers ++ [middleware]
  { r with Handlers := hs, allNoRoute := hs ++ r.noRoute }

/-- The methods `GET`, `HEAD`, `POST`: the route gets the group's current handlers
followed by its own. -/
def Engine.handle (r : Engine) (method path : String) (h : HandlerFunc) : Engine :=
  { r with trees := r.trees ++ [(method, path, r.Handlers ++ [h])] }

/-- The method `Engine.NoRoute`. -/
def Engine.NoRoute (r : Engine) (h : HandlerFunc) : Engine :=
  { r with noRoute := [h], allNoRoute := r.Handlers ++ [h] }

/-- The struct `Config`; `Logger` tells whether the logger is non-nil. -/
structure Config where
  Logger : Bool
  ListenAddr : String
  LogHTTPRequests : Bool
  Code404As200 : Bool
  deriving DecidableEq, Repr

/-- The struct `WebBackend` without its logger. -/
structure WebBackend where
  r : Engine
  cfg : Config
  deriving DecidableEq, Repr

/-- How a call of `New` ends. -/
inductive NewResult where
  | panic (msg : String)
  | error (msg : String)
  | ok (backend : WebBackend)
  deriving DecidableEq, Repr

/-- The constructor `New` (lines 34-108); `templateErr` is the error of
`template.ParseFS`, if any. -/
def New (cfg : Config) (templateErr : Option String) : NewResult :=
  if cfg.Logger = false then NewResult.panic "missing logger"
  else if cfg.ListenAddr.length = 0 then NewResult.panic "missing listen addr"
  else
    let r := ginNew
    match templateErr with
    | some err => NewResult.error ("error loading templates: " ++ err)
    | none =>
      let r := if cfg.LogHTTPRequests then r.Use HandlerFunc.ginzap else r
      let r := r.Use HandlerFunc.recovery
      let r := r.Use HandlerFunc.rateTick
      let r := r.handle "GET" "/_status/health" HandlerFunc.healthcheck
      let r := r.handle "HEAD" "/_status/health" HandlerFunc.healthcheck
      let r := r.handle "GET" "/_status/metrics" HandlerFunc.metrics
      let r := r.handle "GET" "/s/*filepath" HandlerFunc.static
      let r := r.handle "GET" "/" HandlerFunc.index
      let r := r.handle "GET" "/slow/:duration" HandlerFunc.slowRequest
      let r := r.handle "POST" "/post" HandlerFunc.postSink
      let r := r.handle "POST" "/post/:duration" HandlerFunc.postSink
      let r := r.NoRoute HandlerFunc.notFound
      let r := r.handle "GET" "/routes" HandlerFunc.routes
      NewResult.ok { r := r, cfg := cfg }

/-- How running a chain of handlers ends: it returned, it panicked, or it has
not returned. -/
inductive Outcome where
  | done (st : State)
  | panicked (st : State)
  | running
  deriving DecidableEq, Repr

/-- Execution of a handler chain by gin's `Context.Next`, given what the route
handlers do.  Ginzap and the recovery wrap the rest of the chain with
`c.Next()`; the rate tick returns and the chain goes on. -/
def serveChain (route : HandlerFunc → State → Outcome) : List HandlerFunc → State → Outcome
  | [], st => Outcome.done st
  | h :: rest, st =>
    match h with
    | HandlerFunc.ginzap =>
      match serveChain route rest (st.emit [Event.logStart]) with
      | Outcome.done st => Outcome.done (st.emit [Event.logRecord])
      | o => o
    | HandlerFunc.recovery =>
      match serveChain route rest (st.emit [Event.recoverDefer]) with
      | Outcome.panicked st => Outcome.done (st.emit [Event.abort500])
      | o => o
    | HandlerFunc.rateTick => serveChain route rest (rateReqUpdate 1 st)
    | h =>
      match route h st with
      | Outcome.done st => serveChain route rest st
      | o => o

/-! ## Vocabulary of the specification -/

/-- The pacing as the specification words it: 10 s, replaced by `I / 10` when
`I < 1000 s`. -/
def specWait (interval : Int) : Int :=
  if interval < 1000 * second then interval.tdiv 10 else 10 * second

/-- The actions of `k` successive keep-alive rounds: sleep, write the two bytes, flush. -/
def keepAlives (waitInterval : Int) : Nat → List Event
  | 0 => []
  | k + 1 =>
    [Event.sleep waitInterval, Event.write "!\n", Event.flush] ++ keepAlives waitInterval k

/-- The deltas applied to `conn.inflight` in a trace, in order. -/
def inflightDeltas : List Event → List Int
  | [] => []
  | Event.inflightUpdate d :: rest => d :: inflightDeltas rest
  | _ :: rest => inflightDeltas rest

/-- The deltas applied to `conn.err` in a trace, in order. -/
def errDeltas : List Event → List Nat
  | [] => []
  | Event.errUpdate d :: rest => d :: errDeltas rest
  | _ :: rest => errDeltas rest

/-- The payloads of the `c.Writer.Write` calls in a trace, in order. -/
def writtenChunks : List Event → List String
  | [] => []
  | Event.write d :: rest => d :: writtenChunks rest
  | _ :: rest => writtenChunks rest

/-- The HTTP status of the response: the code of the first `c.HTML` or
`c.String`, or 200 when a plain write or flush commits the header first. -/
def responseStatus : List Event → Option Nat
  | [] => none
  | Event.html code _ _ :: _ => some code
  | Event.string code _ :: _ => some code
  | Event.write _ :: _ => some 200
  | Event.flush :: _ => some 200
  | Event.abort500 :: _ => some 500
  | _ :: rest => responseStatus rest

/-- The text sent by the `c.Writer.Write` and `c.String` calls of a trace. -/
def plainBody : List Event → String
  | [] => ""
  | Event.write d :: rest => d ++ plainBody rest
  | Event.string _ b :: rest => b ++ plainBody rest
  | _ :: rest => plainBody rest

/-- The reads a handler performs on a body: up to and including the first one
that returns no byte or an error; a body whose outcomes are used up answers
`(0, io.EOF)`. -/
def performed : List ReadResult → List ReadResult
  | [] => [⟨0, some ReadErr.eof⟩]
  | r :: rest => if r.n = 0 ∨ r.err.isSome = true then [r] else r :: performed rest

/-- The divisor as the specification words it: `D = max(1, S / (10 * 1024))`. -/
def specDivider (S : Nat) : Nat := max 1 (S / (10 * 1024))

/-- Total number of bytes returned by the first `k` reads. -/
def bytesThrough (reads : List ReadResult) (k : Nat) : Nat :=
  ((reads.take k).map ReadResult.n).sum

/-- The progress line as the specification words it. -/
def specProgressLine (R S : Nat) : String :=
  "progress " ++ toString R ++ "/" ++ toString S ++ "\n"

/-- What paced mode does around the read at 1-indexed position `k`, in the words
of the specification: a non-empty read is followed by a progress line exactly
when `k mod D = 0`, then by the sleep. -/
def specPacedStep (interval : Int) (S : Nat) (reads : List ReadResult) (k : Nat)
    (r : ReadResult) : List Event :=
  Event.read r ::
    (if r.n = 0 then []
     else
      (if k % specDivider S = 0 then
        [Event.write (specProgressLine (bytesThrough reads k) S), Event.flush]
       else []) ++ [Event.sleep interval])

/-- The actions of the paced read loop on the given reads, in the words of the
specification. -/
def specPacedTrace (interval : Int) (S : Nat) (reads : List ReadResult) : List Event :=
  reads.enum.flatMap (fun p => specPacedStep interval S reads (p.1 + 1) p.2)

/-- The progress lines of paced mode in the words of the specification: one
line `progress R/S` for each non-empty read whose 1-indexed position `k` has
`k mod D = 0`, with `R` the bytes read through read `k`; positions run over the
reads in order. -/
def specProgressLines (S : Nat) (reads : List ReadResult) : List String :=
  reads.enum.filterMap (fun p =>
    if p.2.n ≠ 0 ∧ (p.1 + 1) % specDivider S = 0 then
      some (specProgressLine (bytesThrough reads (p.1 + 1)) S)
    else none)

/-- A body of `S` bytes delivered in full 1024-byte reads, the last one shorter
when `S` is not a multiple of 1024. -/
def fullReads (S : Nat) : List ReadResult :=
  List.replicate (S / 1024) ⟨1024, none⟩ ++
    (if S % 1024 = 0 then [] else [⟨S % 1024, none⟩])

/-- The three middlewares. -/
def HandlerFunc.isMiddleware : HandlerFunc → Bool
  | HandlerFunc.ginzap => true
  | HandlerFunc.recovery => true
  | HandlerFunc.rateTick => true
  | _ => false

/-- The middleware order as the specification words it, outermost first: rate
tick, request log when enabled, panic recovery. -/
def specChain (cfg : Config) : List HandlerFunc :=
  [HandlerFunc.rateTick] ++ (if cfg.LogHTTPRequests then [HandlerFunc.ginzap] else []) ++
    [HandlerFunc.recovery]

/-- The state in which the route handler starts when the chain built by `New`
is run from `st`. -/
def chainEntry (cfg : Config) (st : State) : State :=
  rateReqUpdate 1
    ((if cfg.LogHTTPRequests then st.emit [Event.logStart] else st).emit [Event.recoverDefer])

/-- What the middlewares of the chain built by `New` do with the outcome of the
route handler. -/
def chainExit (cfg : Config) (o : Outcome) : Outcome :=
  match o with
  | Outcome.done st =>
    if cfg.LogHTTPRequests then Outcome.done (st.emit [Event.logRecord]) else Outcome.done st
  | Outcome.panicked st =>
    if cfg.LogHTTPRequests then Outcome.done ((st.emit [Event.abort500]).emit [Event.logRecord])
    else Outcome.done (st.emit [Event.abort500])
  | Outcome.running => Outcome.running

/-- The actions of `SlowRequest` before its loop, for a parsed duration: the
gauge update, the pre template with its two variables, the flush. -/
def slowPreamble (env : Env) (interval : Int) : List Event :=
  [Event.inflightUpdate 1,
   Event.html 200 "slow_pre.tmpl"
     [("duration", env.durationString interval),
      ("interval", env.durationString (waitInterval interval))],
   Event.flush]

/-- The state in which `SlowRequest` enters its loop, for a parsed duration. -/
def slowEntry (env : Env) (interval : Int) (st : State) : State :=
  ((inflightReqUpdate 1 st).emit [Event.html 200 "slow_pre.tmpl"
    [("duration", env.durationString interval),
     ("interval", env.durationString (waitInterval interval))]]).emit [Event.flush]

/-- A read that delivers the bytes `c` without error. -/
def dataRead (c : List UInt8) : ReadResult := ⟨c.length, none⟩

/-- A read that delivers the bytes `c` together with the error `e`. -/
def lastRead (c : List UInt8) (e : ReadErr) : ReadResult := ⟨c.length, some e⟩

/-- The read that signals the end of the body: no byte and `io.EOF`. -/
def eofRead : ReadResult := ⟨0, some ReadErr.eof⟩

/-! ## Concrete data for the examples -/

/-- Values of the Go library functions on the few arguments used in the examples
below: `time.ParseDuration` and `Duration.String` on `100ms`, `10ms`, `5ns`, `0s`,
`-1s`, `500s`, and the rejection of `bogus` and of the empty string; `strconv.Atoi`
on `10240` and `11264` and on the empty string.  No write fails and no sleep
overruns. -/
def sampleEnv : Env where
  parseDuration := fun s =>
    if s = "100ms" then Except.ok 100000000
    else if s = "10ms" then Except.ok 10000000
    else if s = "5ns" then Except.ok 5
    else if s = "0s" then Except.ok 0
    else if s = "-1s" then Except.ok (-1000000000)
    else if s = "500s" then Except.ok 500000000000
    else if s = "bogus" then Except.error "time: invalid duration \"bogus\""
    else Except.error "time: invalid duration \"\""
  durationString := fun d =>
    if d = 100000000 then "100ms"
    else if d = 10000000 then "10ms"
    else if d = 5 then "5ns"
    else if d = -1000000000 then "-1s"
    else if d = -100000000 then "-100ms"
    else if d = 500000000000 then "8m20s"
    else if d = 10000000000 then "10s"
    else "0s"
  atoiValue := fun s =>
    if s = "10240" then 10240
    else if s = "11264" then 11264
    else 0
  writeErr := fun _ => false
  overrun := fun _ => 0

/-- The sample environment with a peer that is gone at the third keep-alive write. -/
def goneEnv : Env :=
  { sampleEnv with writeErr := fun k => decide (k = 2) }

/-- A server at rest: metrics at zero, clock at zero, nothing done yet. -/
def idle : State :=
  { inflight := 0, err := 0, rate := 0, now := 0, sleeps := 0, writes := 0, trace := [] }

/-- The configuration `main` passes, with request logging switched on. -/
def sampleConfig : Config :=
  { Logger := true, ListenAddr := "127.0.0.1:3001", LogHTTPRequests := true,
    Code404As200 := false }

/-! ## The keep-alive loop of `SlowRequest` -/

theorem slowLoop_mono (env : Env) (endAt W : Int) :
    ∀ (fuel : Nat) (st st' : State), slowLoop env endAt W fuel st = some st' →
      ∀ n, slowLoop env endAt W (fuel + n) st = some st' := by
  intro fuel
  induction fuel with
  | zero => intro st st' h; simp [slowLoop] at h
  | succ fuel ih =>
    intro st st' h n
    have e : fuel + 1 + n = (fuel + n) + 1 := by omega
    rw [e]
    simp only [slowLoop] at h ⊢
    split at h
    · rename_i hfired
      simpa [hfired] using h
    · rename_i hfired
      simp only [hfired, if_false]
      split at h
      · rename_i herr
        simpa [herr] using h
      · rename_i herr
        simp only [herr]
        exact ih _ _ h n

/-- Shape of every terminating run of the loop: `k` successful keep-alive
rounds, followed either by the post template or by one more round whose write
failed and the update of `conn.err`. -/
theorem slowLoop_spec (env : Env) (endAt W : Int) :
    ∀ (fuel : Nat) (st st' : State), slowLoop env endAt W fuel st = some st' →
      ∃ k : Nat,
        st'.inflight = st.inflight ∧ st'.rate = st.rate ∧
        (∀ j, j < k → env.writeErr (st.writes + j) = false) ∧
        ((st'.err = st.err ∧ st'.writes = st.writes + k ∧ st'.sleeps = st.sleeps + k ∧
            endAt ≤ st'.now ∧ st.now ≤ st'.now ∧
            st'.trace = st.trace ++ keepAlives W k ++ [Event.html 200 "slow_post.tmpl" []]) ∨
         (env.writeErr (st.writes + k) = true ∧ st'.err = st.err + 1 ∧
            st'.writes = st.writes + k + 1 ∧ st'.sleeps = st.sleeps + k + 1 ∧
            st'.trace = st.trace ++ keepAlives W (k + 1) ++ [Event.errUpdate 1])) := by
  intro fuel
  induction fuel with
  | zero => intro st st' h; simp [slowLoop] at h
  | succ fuel ih =>
    intro st st' h
    simp only [slowLoop] at h
    split at h
    · rename_i hfired
      refine ⟨0, ?_⟩
      cases h
      simp [State.emit, keepAlives, hfired]
    · rename_i hfired
      split at h
      · rename_i herr
        refine ⟨0, ?_⟩
        cases h
        simp [writerWrite, timeSleep] at herr
        simp [State.emit, keepAlives, errReqUpdate, writerWrite, timeSleep, herr]
      · rename_i herr
        simp [writerWrite, timeSleep] at herr
        obtain ⟨k, h1, h2, h3, h4⟩ := ih _ _ h
        refine ⟨k + 1, ?_, ?_, ?_, ?_⟩
        · simpa [State.emit, writerWrite, timeSleep] using h1
        · simpa [State.emit, writerWrite, timeSleep] using h2
        · intro j hj
          cases j with
          | zero => simpa using herr
          | succ j =>
            have := h3 j (by omega)
            simp [State.emit, writerWrite, timeSleep] at this
            rw [← this]; congr 1; omega
        · rcases h4 with ⟨a1, a2, a3, a4, a5, a6⟩ | ⟨b1, b2, b3, b4, b5⟩
          · left
            simp [State.emit, writerWrite, timeSleep] at a1 a2 a3 a4 a5 a6
            refine ⟨a1, by omega, by omega, a4, ?_, ?_⟩
            · have : (0 : Int) ≤ max W 0 := le_max_right _ _
              have : (0 : Int) ≤ (env.overrun st.sleeps : Int) := Int.ofNat_nonneg _
              linarith
            · rw [a6]; simp [keepAlives]
          · right
            simp [State.emit, writerWrite, timeSleep] at b1 b2 b3 b4 b5
            refine ⟨?_, b2, by omega, by omega, ?_⟩
            · rw [← b1]; congr 1; omega
            · rw [b5]; simp [keepAlives]

theorem slowLoop_fired (env : Env) (endAt W : Int) (fuel : Nat) (st : State)
    (h : endAt ≤ st.now) :
    slowLoop env endAt W (fuel + 1) st = some (st.emit [Event.html 200 "slow_post.tmpl" []]) := by
  simp [slowLoop, h]

/-- With a pacing of at least one nanosecond the loop returns within
`endAt - now + 1` iterations. -/
theorem slowLoop_terminates (env : Env) (endAt W : Int) (hW : 1 ≤ W) :
    ∀ (fuel : Nat) (st : State), endAt - st.now < fuel → 0 < fuel →
      ∃ st', slowLoop env endAt W fuel st = some st' := by
  intro fuel
  induction fuel with
  | zero => intro st _ h; omega
  | succ fuel ih =>
    intro st hlt _
    by_cases hfired : endAt ≤ st.now
    · exact ⟨_, slowLoop_fired env endAt W fuel st hfired⟩
    · simp only [slowLoop, hfired, if_false]
      split
      · exact ⟨_, rfl⟩
      · apply ih
        · simp only [State.emit, writerWrite, timeSleep]
          have h1 : max W 0 = W := max_eq_left (by omega)
          have h2 : (0 : Int) ≤ (env.overrun st.sleeps : Int) := Int.ofNat_nonneg _
          rw [h1]
          push_cast at hlt ⊢
          omega
        · push_cast at hlt
          omega

/-- A write that fails stops the loop, whatever the pacing. -/
theorem slowLoop_terminates_of_writeErr (env : Env) (endAt W : Int) :
    ∀ (k : Nat) (st : State), env.writeErr (st.writes + k) = true →
      ∃ st', slowLoop env endAt W (k + 1) st = some st' := by
  intro k
  induction k with
  | zero =>
    intro st h
    by_cases hfired : endAt ≤ st.now
    · exact ⟨_, slowLoop_fired env endAt W 0 st hfired⟩
    · simp only [slowLoop, hfired, if_false]
      simp only [Nat.add_zero] at h
      simp [writerWrite, timeSleep, h]
  | succ k ih =>
    intro st h
    by_cases hfired : endAt ≤ st.now
    · exact ⟨_, slowLoop_fired env endAt W (k + 1) st hfired⟩
    · rw [slowLoop]
      simp only [hfired, if_false]
      split
      · exact ⟨_, rfl⟩
      · apply ih
        simp only [State.emit, writerWrite, timeSleep]
        rw [← h]; congr 1; omega

/-- When sleeps take exactly the requested time and no write fails, the loop
leaves less than one pacing interval after the deadline. -/
theorem slowLoop_now_lt (env : Env) (endAt W : Int) (hW : 0 ≤ W)
    (hover : ∀ k, env.overrun k = 0) (hwrite : ∀ k, env.writeErr k = false) :
    ∀ (fuel : Nat) (st st' : State), st.now < endAt + W →
      slowLoop env endAt W fuel st = some st' → st'.now < endAt + W := by
  intro fuel
  induction fuel with
  | zero => intro st st' _ h; simp [slowLoop] at h
  | succ fuel ih =>
    intro st st' hinv h
    simp only [slowLoop] at h
    split at h
    · cases h
      simpa [State.emit] using hinv
    · rename_i hfired
      simp only [writerWrite, hwrite] at h
      apply ih _ _ ?_ h
      simp only [State.emit, timeSleep, hover]
      have h1 : max W 0 = W := max_eq_left hW
      rw [h1]
      push_cast
      omega

/-- With a pacing of zero, sleeps that take no time and a peer that accepts
every write, a loop entered before the deadline never leaves it. -/
theorem slowLoop_diverges (env : Env) (endAt W : Int) (hW : W ≤ 0)
    (hover : ∀ k, env.overrun k = 0) (hwrite : ∀ k, env.writeErr k = false) :
    ∀ (fuel : Nat) (st : State), st.now < endAt → slowLoop env endAt W fuel st = none := by
  intro fuel
  induction fuel with
  | zero => intro st _; rfl
  | succ fuel ih =>
    intro st hlt
    have hfired : ¬ endAt ≤ st.now := by omega
    simp only [slowLoop, hfired, if_false, writerWrite, hwrite]
    apply ih
    simp only [State.emit, timeSleep, hover]
    have h1 : max W 0 = 0 := max_eq_right hW
    rw [h1]
    push_cast
    omega

theorem waitInterval_ge (I : Int) (h : 100 * second ≤ I) : waitInterval I = 10 * second := by
  unfold waitInterval second at *
  simp only []
  rw [if_neg (by omega)]
  norm_num

theorem waitInterval_lt (I : Int) (h : I < 100 * second) : waitInterval I = I.tdiv 10 := by
  unfold waitInterval second at *
  simp only []
  rw [if_pos (by omega)]

theorem waitInterval_pos (I : Int) (h : 10 ≤ I) : 1 ≤ waitInterval I := by
  by_cases hI : I < 100 * second
  · rw [waitInterval_lt I hI, Int.tdiv_eq_ediv (by omega) (by omega)]
    omega
  · rw [waitInterval_ge I (by omega)]
    unfold second
    omega

theorem waitInterval_le_specWait (I : Int) (h : 0 ≤ I) : waitInterval I ≤ specWait I := by
  unfold specWait
  by_cases hI : I < 100 * second
  · rw [waitInterval_lt I hI, if_pos (by unfold second at *; omega)]
  · rw [waitInterval_ge I (by omega)]
    split
    · rw [Int.tdiv_eq_ediv (by omega) (by omega)]
      unfold second at *
      omega
    · exact le_refl _

/-! ## Traces -/

theorem inflightDeltas_append (a b : List Event) :
    inflightDeltas (a ++ b) = inflightDeltas a ++ inflightDeltas b := by
  induction a with
  | nil => rfl
  | cons e a ih => cases e <;> simp [inflightDeltas, ih]

theorem errDeltas_append (a b : List Event) :
    errDeltas (a ++ b) = errDeltas a ++ errDeltas b := by
  induction a with
  | nil => rfl
  | cons e a ih => cases e <;> simp [errDeltas, ih]

theorem writtenChunks_append (a b : List Event) :
    writtenChunks (a ++ b) = writtenChunks a ++ writtenChunks b := by
  induction a with
  | nil => rfl
  | cons e a ih => cases e <;> simp [writtenChunks, ih]

theorem inflightDeltas_keepAlives (W : Int) (k : Nat) : inflightDeltas (keepAlives W k) = [] := by
  induction k with
  | zero => rfl
  | succ k ih => simp [keepAlives, inflightDeltas, ih]

theorem errDeltas_keepAlives (W : Int) (k : Nat) : errDeltas (keepAlives W k) = [] := by
  induction k with
  | zero => rfl
  | succ k ih => simp [keepAlives, errDeltas, ih]

theorem mem_keepAlives (W : Int) (k : Nat) (e : Event) (h : e ∈ keepAlives W k) :
    e = Event.sleep W ∨ e = Event.write "!\n" ∨ e = Event.flush := by
  induction k with
  | zero => simp [keepAlives] at h
  | succ k ih =>
    simp only [keepAlives, List.mem_append, List.mem_cons, List.mem_singleton,
      List.not_mem_nil, or_false] at h
    rcases h with (h | h | h) | h
    · exact Or.inl h
    · exact Or.inr (Or.inl h)
    · exact Or.inr (Or.inr h)
    · exact ih h

theorem keepAlives_succ_end (W : Int) (k : Nat) :
    keepAlives W (k + 1) =
      keepAlives W k ++ [Event.sleep W, Event.write "!\n", Event.flush] := by
  induction k with
  | zero => rfl
  | succ k ih =>
    show [Event.sleep W, Event.write "!\n", Event.flush] ++ keepAlives W (k + 1) =
      ([Event.sleep W, Event.write "!\n", Event.flush] ++ keepAlives W k) ++
        [Event.sleep W, Event.write "!\n", Event.flush]
    rw [ih, List.append_assoc]

/-! ## `SlowRequest` -/

theorem slowRequest_rejected (env : Env) (fuel : Nat) (req : Request) (st : State)
    (msg : String) (hp : env.parseDuration req.duration = Except.error msg) :
    SlowRequest env fuel req st =
      some (st.emit [Event.html 400 "error.tmpl" [("msg", "bad time: " ++ msg)]]) := by
  simp [SlowRequest, hp]

/-- Shape of every returning run of `SlowRequest` on a parsed duration. -/
theorem slowRequest_spec (env : Env) (fuel : Nat) (req : Request) (st st' : State) (I : Int)
    (hp : env.parseDuration req.duration = Except.ok I)
    (h : SlowRequest env fuel req st = some st') :
    ∃ k : Nat,
      st'.inflight = st.inflight ∧ st'.rate = st.rate ∧
      (∀ j, j < k → env.writeErr (st.writes + j) = false) ∧
      ((st'.err = st.err ∧ st'.writes = st.writes + k ∧ st'.sleeps = st.sleeps + k ∧
          st.now + I ≤ st'.now ∧
          st'.trace = st.trace ++ (slowPreamble env I ++ keepAlives (waitInterval I) k ++
            [Event.html 200 "slow_post.tmpl" [], Event.inflightUpdate (-1)])) ∨
       (env.writeErr (st.writes + k) = true ∧ st'.err = st.err + 1 ∧
          st'.writes = st.writes + k + 1 ∧ st'.sleeps = st.sleeps + k + 1 ∧
          st'.trace = st.trace ++ (slowPreamble env I ++ keepAlives (waitInterval I) (k + 1) ++
            [Event.errUpdate 1, Event.inflightUpdate (-1)]))) := by
  simp only [SlowRequest, hp, Option.map_eq_some'] at h
  obtain ⟨s1, hloop, hs1⟩ := h
  obtain ⟨k, h1, h2, h3, h4⟩ := slowLoop_spec env _ _ fuel _ _ hloop
  subst hs1
  simp only [State.emit, inflightReqUpdate] at h1 h2 h3 h4
  refine ⟨k, ?_, ?_, h3, ?_⟩
  · simp only [inflightReqUpdate, h1]; omega
  · simpa [inflightReqUpdate] using h2
  · rcases h4 with ⟨a1, a2, a3, a4, _, a6⟩ | ⟨b1, b2, b3, b4, b5⟩
    · left
      refine ⟨a1, a2, a3, a4, ?_⟩
      simp [inflightReqUpdate, a6, slowPreamble]
    · right
      refine ⟨b1, b2, b3, b4, ?_⟩
      simp [inflightReqUpdate, b5, slowPreamble]

/-- Returning runs of `SlowRequest` do not depend on the iteration bound. -/
theorem slowRequest_mono (env : Env) (fuel : Nat) (req : Request) (st st' : State)
    (h : SlowRequest env fuel req st = some st') (n : Nat) :
    SlowRequest env (fuel + n) req st = some st' := by
  unfold SlowRequest at h ⊢
  split
  · rename_i msg hp
    simpa [hp] using h
  · rename_i I hp
    simp only [hp, Option.map_eq_some'] at h ⊢
    obtain ⟨s1, hloop, hs1⟩ := h
    exact ⟨s1, slowLoop_mono env _ _ fuel _ _ hloop n, hs1⟩

theorem slowRequest_ok (env : Env) (fuel : Nat) (req : Request) (st : State) (I : Int)
    (hp : env.parseDuration req.duration = Except.ok I) :
    SlowRequest env fuel req st =
      (slowLoop env (st.now + I) (waitInterval I) fuel (slowEntry env I st)).map
        (inflightReqUpdate (-1)) := by
  simp only [SlowRequest, hp, slowEntry]
  rfl

theorem slowRequest_returns (env : Env) (fuel : Nat) (req : Request) (st : State) (I : Int)
    (hp : env.parseDuration req.duration = Except.ok I)
    (h : ∃ s, slowLoop env (st.now + I) (waitInterval I) fuel (slowEntry env I st) = some s) :
    ∃ st', SlowRequest env fuel req st = some st' := by
  obtain ⟨s, hs⟩ := h
  exact ⟨inflightReqUpdate (-1) s, by rw [slowRequest_ok env fuel req st I hp, hs]; rfl⟩

/-- Two returning runs of `SlowRequest` from the same state end in the same state. -/
theorem slowRequest_deterministic (env : Env) (req : Request) (st s1 s2 : State)
    (f1 f2 : Nat) (h1 : SlowRequest env f1 req st = some s1)
    (h2 : SlowRequest env f2 req st = some s2) : s1 = s2 := by
  have a := slowRequest_mono env f1 req st s1 h1 f2
  have b := slowRequest_mono env f2 req st s2 h2 f1
  rw [Nat.add_comm] at b
  rw [a] at b
  exact Option.some.inj b

/-! ## Claims on `SlowRequest` -/

/-- C1: every returning run of `SlowRequest` leaves `conn.inflight` at the value
it had on entry, the gauge being either untouched or updated by `+1` and then by
`-1`; and the handler does return when the duration is rejected, is at most
zero, is at least 10 ns (so that the pacing is positive), or when some
keep-alive write fails. -/
theorem slowRequest_inflight_restored (env : Env) (req : Request) (st : State) :
    (∀ fuel st', SlowRequest env fuel req st = some st' →
      st'.inflight = st.inflight ∧
      ∃ delta, st'.trace = st.trace ++ delta ∧
        (inflightDeltas delta = [] ∨ inflightDeltas delta = [1, -1])) ∧
    ((∀ I, env.parseDuration req.duration = Except.ok I →
        I ≤ 0 ∨ 10 ≤ I ∨ ∃ k, env.writeErr (st.writes + k) = true) →
      ∃ fuel st', SlowRequest env fuel req st = some st') := by
  constructor
  · intro fuel st' h
    cases hp : env.parseDuration req.duration with
    | error msg =>
      rw [slowRequest_rejected env fuel req st msg hp] at h
      cases h
      exact ⟨rfl, _, rfl, Or.inl rfl⟩
    | ok I =>
      obtain ⟨k, h1, _, _, h4⟩ := slowRequest_spec env fuel req st st' I hp h
      refine ⟨h1, ?_⟩
      rcases h4 with ⟨_, _, _, _, a⟩ | ⟨_, _, _, _, b⟩
      · exact ⟨_, a, Or.inr (by
          simp [inflightDeltas_append, inflightDeltas_keepAlives, slowPreamble, inflightDeltas])⟩
      · exact ⟨_, b, Or.inr (by
          simp [inflightDeltas_append, inflightDeltas_keepAlives, slowPreamble, inflightDeltas])⟩
  · intro hI
    cases hp : env.parseDuration req.duration with
    | error msg => exact ⟨0, _, slowRequest_rejected env 0 req st msg hp⟩
    | ok I =>
      rcases hI I hp with h | h | ⟨k, h⟩
      · exact ⟨1, slowRequest_returns env 1 req st I hp
          ⟨_, slowLoop_fired env _ _ 0 _ (by simp [slowEntry, State.emit, inflightReqUpdate, h])⟩⟩
      · refine ⟨I.toNat + 1, slowRequest_returns env _ req st I hp ?_⟩
        apply slowLoop_terminates env _ _ (waitInterval_pos I h)
        · simp only [slowEntry, State.emit, inflightReqUpdate]
          push_cast
          omega
        · omega
      · exact ⟨k + 1, slowRequest_returns env _ req st I hp
          (slowLoop_terminates_of_writeErr env _ _ k _ (by
            simpa [slowEntry, State.emit, inflightReqUpdate] using h))⟩

/-- Witness for C1: the request `/slow/100ms` on the sample environment returns
and leaves the gauge where it was. -/
theorem slowRequest_inflight_restored_witness :
    ∃ st', SlowRequest sampleEnv 11 ⟨"100ms", "", []⟩ idle = some st' ∧
      st'.inflight = idle.inflight := by
  have hrun : (SlowRequest sampleEnv 11 ⟨"100ms", "", []⟩ idle).isSome = true := by decide
  obtain ⟨st', hst'⟩ := Option.isSome_iff_exists.mp hrun
  exact ⟨st', hst',
    ((slowRequest_inflight_restored sampleEnv ⟨"100ms", "", []⟩ idle).1 11 st' hst').1⟩

/-- C2, amended: the pacing computed by `SlowRequest` for a parsed duration `I`
is 10 s when `I ≥ 100 s` and `I / 10` (truncated) when `I < 100 s`; it is the
interval shown by the pre template and the argument of every sleep of the
request. -/
theorem slowRequest_pacing (env : Env) (req : Request) (st : State) (I : Int)
    (hp : env.parseDuration req.duration = Except.ok I) :
    (100 * second ≤ I → waitInterval I = 10 * second) ∧
    (I < 100 * second → waitInterval I = I.tdiv 10) ∧
    ∀ fuel st', SlowRequest env fuel req st = some st' →
      ∃ delta, st'.trace = st.trace ++ delta ∧
        Event.html 200 "slow_pre.tmpl"
          [("duration", env.durationString I),
           ("interval", env.durationString (waitInterval I))] ∈ delta ∧
        ∀ d, Event.sleep d ∈ delta → d = waitInterval I := by
  refine ⟨waitInterval_ge I, waitInterval_lt I, ?_⟩
  intro fuel st' h
  obtain ⟨k, _, _, _, h4⟩ := slowRequest_spec env fuel req st st' I hp h
  have key : ∀ (n : Nat) (tail : List Event), (∀ d, Event.sleep d ∉ tail) →
      ∀ d, Event.sleep d ∈ slowPreamble env I ++ keepAlives (waitInterval I) n ++ tail →
        d = waitInterval I := by
    intro n tail htail d hd
    simp only [List.mem_append] at hd
    rcases hd with (hd | hd) | hd
    · simp [slowPreamble] at hd
    · rcases mem_keepAlives _ _ _ hd with e | e | e
      · exact Event.sleep.inj e
      · cases e
      · cases e
    · exact absurd hd (htail d)
  rcases h4 with ⟨_, _, _, _, a⟩ | ⟨_, _, _, _, b⟩
  · exact ⟨_, a, by simp [slowPreamble], key k _ (by simp)⟩
  · exact ⟨_, b, by simp [slowPreamble], key (k + 1) _ (by simp)⟩

/-- Witness for C2 (amended): `/slow/500s` with a peer that disappears at the
third keep-alive; every sleep of the run is the computed pacing. -/
theorem slowRequest_pacing_witness :
    ∃ st', SlowRequest goneEnv 3 ⟨"500s", "", []⟩ idle = some st' ∧
      ∃ delta, st'.trace = idle.trace ++ delta ∧
        ∀ d, Event.sleep d ∈ delta → d = waitInterval 500000000000 := by
  have hrun : (SlowRequest goneEnv 3 ⟨"500s", "", []⟩ idle).isSome = true := by decide
  obtain ⟨st', hst'⟩ := Option.isSome_iff_exists.mp hrun
  obtain ⟨delta, h1, _, h3⟩ :=
    (slowRequest_pacing goneEnv ⟨"500s", "", []⟩ idle 500000000000 rfl).2.2 3 st' hst'
  exact ⟨st', hst', delta, h1, h3⟩

/-- Counterexample to C2 as stated: `500s` parses to a duration below 1000 s, yet
the pacing is 10 s and not a tenth of the duration (50 s); the sleeps of the
request are 10 s long. -/
theorem slowRequest_pacing_counterexample :
    sampleEnv.parseDuration "500s" = Except.ok (500 * second) ∧
    500 * second < 1000 * second ∧
    waitInterval (500 * second) = 10 * second ∧
    specWait (500 * second) = 50 * second ∧
    waitInterval (500 * second) ≠ (500 * second).tdiv 10 ∧
    SlowRequest goneEnv 3 ⟨"500s", "", []⟩ idle = some
      { inflight := 0, err := 1, rate := 0, now := 30000000000, sleeps := 3, writes := 3,
        trace := [Event.inflightUpdate 1,
          Event.html 200 "slow_pre.tmpl" [("duration", "8m20s"), ("interval", "10s")],
          Event.flush,
          Event.sleep 10000000000, Event.write "!\n", Event.flush,
          Event.sleep 10000000000, Event.write "!\n", Event.flush,
          Event.sleep 10000000000, Event.write "!\n", Event.flush,
          Event.errUpdate 1, Event.inflightUpdate (-1)] } := by
  refine ⟨rfl, by decide, by decide, by decide, by decide, by decide⟩

/-- C5: in every returning run of `SlowRequest`, either no keep-alive write of the
run failed, and then `conn.err` is unchanged and never updated; or the last
write of the run failed (and no earlier one), and then `conn.err` went up by
exactly 1 and the handler did nothing after that write but flush, update
`conn.err` and run the deferred gauge update: the post template is not emitted.
Moreover the handler returns as soon as some keep-alive write is bound to fail. -/
theorem slowRequest_write_failure (env : Env) (req : Request) (st : State) :
    (∀ fuel st', SlowRequest env fuel req st = some st' →
      ∃ delta, st'.trace = st.trace ++ delta ∧
        (((∀ k, st.writes ≤ k → k < st'.writes → env.writeErr k = false) ∧
            st'.err = st.err ∧ errDeltas delta = []) ∨
         (st.writes < st'.writes ∧ env.writeErr (st'.writes - 1) = true ∧
            (∀ k, st.writes ≤ k → k < st'.writes - 1 → env.writeErr k = false) ∧
            st'.err = st.err + 1 ∧ errDeltas delta = [1] ∧
            (∃ before, delta = before ++
              [Event.write "!\n", Event.flush, Event.errUpdate 1, Event.inflightUpdate (-1)]) ∧
            Event.html 200 "slow_post.tmpl" [] ∉ delta))) ∧
    (∀ k, env.writeErr (st.writes + k) = true →
      ∃ fuel st', SlowRequest env fuel req st = some st') := by
  constructor
  · intro fuel st' h
    cases hp : env.parseDuration req.duration with
    | error msg =>
      rw [slowRequest_rejected env fuel req st msg hp] at h
      cases h
      refine ⟨_, rfl, Or.inl ⟨?_, rfl, rfl⟩⟩
      intro k h1 h2
      simp only [State.emit] at h2
      omega
    | ok I =>
      obtain ⟨k, _, _, h3, h4⟩ := slowRequest_spec env fuel req st st' I hp h
      rcases h4 with ⟨a1, a2, _, _, a5⟩ | ⟨b1, b2, b3, _, b5⟩
      · refine ⟨_, a5, Or.inl ⟨?_, a1, ?_⟩⟩
        · intro j h1 h2
          have := h3 (j - st.writes) (by omega)
          rw [← this]; congr 1; omega
        · simp [errDeltas_append, errDeltas_keepAlives, slowPreamble, errDeltas]
      · refine ⟨_, b5, Or.inr ⟨by omega, ?_, ?_, b2, ?_, ?_, ?_⟩⟩
        · rw [← b1]; congr 1; omega
        · intro j h1 h2
          have := h3 (j - st.writes) (by omega)
          rw [← this]; congr 1; omega
        · simp [errDeltas_append, errDeltas_keepAlives, slowPreamble, errDeltas]
        · refine ⟨slowPreamble env I ++ keepAlives (waitInterval I) k ++
            [Event.sleep (waitInterval I)], ?_⟩
          rw [keepAlives_succ_end]
          simp
        · intro hmem
          simp only [List.mem_append] at hmem
          rcases hmem with (hmem | hmem) | hmem
          · simp [slowPreamble] at hmem
          · rcases mem_keepAlives _ _ _ hmem with e | e | e <;> cases e
          · simp at hmem
  · intro k hk
    cases hp : env.parseDuration req.duration with
    | error msg => exact ⟨0, _, slowRequest_rejected env 0 req st msg hp⟩
    | ok I =>
      exact ⟨k + 1, slowRequest_returns env _ req st I hp
        (slowLoop_terminates_of_writeErr env _ _ k _ (by
          simpa [slowEntry, State.emit, inflightReqUpdate] using hk))⟩

/-- Witness for C5: with a peer gone at the third keep-alive write, `/slow/100ms`
returns with `conn.err` one higher. -/
theorem slowRequest_write_failure_witness :
    goneEnv.writeErr (idle.writes + 2) = true ∧
    ∃ fuel st', SlowRequest goneEnv fuel ⟨"100ms", "", []⟩ idle = some st' :=
  ⟨by decide,
   (slowRequest_write_failure goneEnv ⟨"100ms", "", []⟩ idle).2 2 (by decide)⟩

/-- C6, amended: on a clock that a sleep advances by exactly its argument and
nothing else advances, and with a peer that accepts every write, `SlowRequest`
on a parsed duration `I ≥ 10 ns` returns (for every large enough iteration
bound, always in the same state) after emitting the post template, and the time
`T` elapsed since entry satisfies `I ≤ T ≤ I + W`, where `W` is the pacing of
the code (10 s when `I ≥ 100 s`, `I / 10` otherwise), which is at most the `W`
of the claim; on `I ≤ 0` it returns with `T = 0`. -/
theorem slowRequest_elapsed (env : Env) (req : Request) (st : State) (I : Int)
    (hp : env.parseDuration req.duration = Except.ok I)
    (hwrite : ∀ k, env.writeErr k = false) (hover : ∀ k, env.overrun k = 0) :
    (10 ≤ I → ∃ fuel st' k,
      (∀ n, SlowRequest env (fuel + n) req st = some st') ∧
      (∀ f s, SlowRequest env f req st = some s → s = st') ∧
      st'.trace = st.trace ++ (slowPreamble env I ++ keepAlives (waitInterval I) k ++
        [Event.html 200 "slow_post.tmpl" [], Event.inflightUpdate (-1)]) ∧
      I ≤ st'.now - st.now ∧ st'.now - st.now ≤ I + waitInterval I ∧
      waitInterval I ≤ specWait I) ∧
    (I ≤ 0 → ∃ st',
      (∀ n, SlowRequest env (1 + n) req st = some st') ∧
      (∀ f s, SlowRequest env f req st = some s → s = st') ∧
      st'.trace = st.trace ++ (slowPreamble env I ++
        [Event.html 200 "slow_post.tmpl" [], Event.inflightUpdate (-1)]) ∧
      st'.now - st.now = 0) := by
  constructor
  · intro hI
    have hW := waitInterval_pos I hI
    obtain ⟨s1, hs1⟩ := slowLoop_terminates env (st.now + I) (waitInterval I) hW
      (I.toNat + 1) (slowEntry env I st)
      (by simp only [slowEntry, State.emit, inflightReqUpdate]; push_cast; omega) (by omega)
    have hrun : SlowRequest env (I.toNat + 1) req st = some (inflightReqUpdate (-1) s1) := by
      rw [slowRequest_ok env _ req st I hp, hs1]; rfl
    have hlt := slowLoop_now_lt env (st.now + I) (waitInterval I) (by omega) hover hwrite
      _ _ _ (by simp only [slowEntry, State.emit, inflightReqUpdate]; omega) hs1
    obtain ⟨k, _, _, _, h4⟩ := slowRequest_spec env _ req st _ I hp hrun
    rcases h4 with ⟨_, _, _, a4, a5⟩ | ⟨b1, _⟩
    · refine ⟨I.toNat + 1, _, k, fun n => slowRequest_mono env _ req st _ hrun n,
        fun f s hs => slowRequest_deterministic env req st _ _ _ _ hs hrun, a5, ?_, ?_,
        waitInterval_le_specWait I (by omega)⟩
      · omega
      · simp only [inflightReqUpdate] at a4 ⊢
        omega
    · rw [hwrite] at b1
      cases b1
  · intro hI
    have hloop := slowLoop_fired env (st.now + I) (waitInterval I) 0 (slowEntry env I st)
      (by simp only [slowEntry, State.emit, inflightReqUpdate]; omega)
    have hrun : SlowRequest env 1 req st = some (inflightReqUpdate (-1)
        ((slowEntry env I st).emit [Event.html 200 "slow_post.tmpl" []])) := by
      rw [slowRequest_ok env _ req st I hp, hloop]; rfl
    refine ⟨_, fun n => slowRequest_mono env 1 req st _ hrun n,
      fun f s hs => slowRequest_deterministic env req st _ _ _ _ hs hrun, ?_, ?_⟩
    · simp [inflightReqUpdate, slowEntry, State.emit, slowPreamble]
    · simp [inflightReqUpdate, slowEntry, State.emit]

/-- Witness for C6 (amended): `/slow/100ms` on the sample environment. -/
theorem slowRequest_elapsed_witness :
    ∃ fuel st' k,
      (∀ n, SlowRequest sampleEnv (fuel + n) ⟨"100ms", "", []⟩ idle = some st') ∧
      (∀ f s, SlowRequest sampleEnv f ⟨"100ms", "", []⟩ idle = some s → s = st') ∧
      st'.trace = idle.trace ++ (slowPreamble sampleEnv 100000000 ++
        keepAlives (waitInterval 100000000) k ++
        [Event.html 200 "slow_post.tmpl" [], Event.inflightUpdate (-1)]) ∧
      100000000 ≤ st'.now - idle.now ∧
      st'.now - idle.now ≤ 100000000 + waitInterval 100000000 ∧
      waitInterval 100000000 ≤ specWait 100000000 :=
  (slowRequest_elapsed sampleEnv ⟨"100ms", "", []⟩ idle 100000000 rfl
    (fun _ => rfl) (fun _ => rfl)).1 (by decide)

/-- Counterexample to C6 as stated.  `-1s` is a valid duration: the request
returns at once, so `T = 0`, which is above `I + W = -1.1 s`.  `5ns` is a valid
duration with a pacing of `5 / 10 = 0`: on the clock of the claim no sleep
advances the time and the loop never reaches its deadline. -/
theorem slowRequest_elapsed_counterexample :
    (sampleEnv.parseDuration "-1s" = Except.ok (-1000000000) ∧
      ∃ st', SlowRequest sampleEnv 1 ⟨"-1s", "", []⟩ idle = some st' ∧
        ¬ (st'.now - idle.now ≤ -1000000000 + specWait (-1000000000))) ∧
    (sampleEnv.parseDuration "5ns" = Except.ok 5 ∧
      ∀ fuel, SlowRequest sampleEnv fuel ⟨"5ns", "", []⟩ idle = none) := by
  refine ⟨⟨rfl, ?_⟩, rfl, ?_⟩
  · have hrun : (SlowRequest sampleEnv 1 ⟨"-1s", "", []⟩ idle).isSome = true := by decide
    obtain ⟨st', hst'⟩ := Option.isSome_iff_exists.mp hrun
    refine ⟨st', hst', ?_⟩
    have hnow : (SlowRequest sampleEnv 1 ⟨"-1s", "", []⟩ idle).map State.now = some 0 := by
      decide
    rw [hst'] at hnow
    simp only [Option.map_some', Option.some.injEq] at hnow
    rw [hnow]
    decide
  · intro fuel
    rw [slowRequest_ok sampleEnv fuel ⟨"5ns", "", []⟩ idle 5 rfl]
    rw [slowLoop_diverges sampleEnv _ _ (by decide) (fun _ => rfl) (fun _ => rfl) fuel _
      (by decide)]
    rfl

/-- C10: for a duration that parses to `I ≤ 0`, `SlowRequest` returns (for every
positive iteration bound) having done exactly this: gauge up, pre template with
status 200, flush, post template with status 200, gauge down.  No keep-alive
chunk is written, no sleep is made and the clock has not moved. -/
theorem slowRequest_nonpositive (env : Env) (req : Request) (st : State) (I : Int)
    (hp : env.parseDuration req.duration = Except.ok I) (hI : I ≤ 0) (fuel : Nat) :
    SlowRequest env (fuel + 1) req st = some
      { st with trace := st.trace ++
          [Event.inflightUpdate 1,
           Event.html 200 "slow_pre.tmpl"
             [("duration", env.durationString I),
              ("interval", env.durationString (waitInterval I))],
           Event.flush,
           Event.html 200 "slow_post.tmpl" [],
           Event.inflightUpdate (-1)] } ∧
    responseStatus
      [Event.inflightUpdate 1,
       Event.html 200 "slow_pre.tmpl"
         [("duration", env.durationString I),
          ("interval", env.durationString (waitInterval I))],
       Event.flush,
       Event.html 200 "slow_post.tmpl" [],
       Event.inflightUpdate (-1)] = some 200 := by
  refine ⟨?_, rfl⟩
  have hloop := slowLoop_fired env (st.now + I) (waitInterval I) fuel (slowEntry env I st)
    (by simp only [slowEntry, State.emit, inflightReqUpdate]; omega)
  rw [slowRequest_ok env _ req st I hp, hloop]
  cases st
  simp [inflightReqUpdate, slowEntry, State.emit]

/-- Witness for C10: the slow request with duration `-1s`. -/
theorem slowRequest_nonpositive_witness :
    SlowRequest sampleEnv 1 ⟨"-1s", "", []⟩ idle = some
      { idle with trace := idle.trace ++
          [Event.inflightUpdate 1,
           Event.html 200 "slow_pre.tmpl"
             [("duration", sampleEnv.durationString (-1000000000)),
              ("interval", sampleEnv.durationString (waitInterval (-1000000000)))],
           Event.flush,
           Event.html 200 "slow_post.tmpl" [],
           Event.inflightUpdate (-1)] } :=
  (slowRequest_nonpositive sampleEnv ⟨"-1s", "", []⟩ idle (-1000000000) rfl (by decide) 0).1

/-! ## `PostSink` -/

theorem emit_emit (st : State) (a b : List Event) : (st.emit a).emit b = st.emit (a ++ b) := by
  simp [State.emit]

theorem string_length_pos (s : String) (h : s ≠ "") : 0 < s.length := by
  rcases s with ⟨l⟩
  cases l with
  | nil => exact absurd rfl h
  | cons c l => simp [String.length]

theorem postSink_rejected (env : Env) (req : Request) (st : State) (msg : String)
    (hp : env.parseDuration req.duration = Except.error msg) (hd : req.duration ≠ "") :
    PostSink env req st =
      st.emit [Event.html 400 "error.tmpl" [("msg", "bad time: " ++ msg)]] := by
  have hlen := string_length_pos _ hd
  simp [PostSink, hp, hlen]

theorem postSink_unpaced (env : Env) (req : Request) (st : State)
    (hmode : (req.duration = "" ∧ ∃ msg, env.parseDuration req.duration = Except.error msg) ∨
      (∃ I, env.parseDuration req.duration = Except.ok I ∧ I ≤ 0)) :
    PostSink env req st =
      (((plainLoop req.body 0 st).2).emit
        [Event.string 200 ("received " ++ toString (plainLoop req.body 0 st).1 ++ " bytes\n")]).emit
        [Event.close] := by
  rcases hmode with ⟨hd, msg, hp⟩ | ⟨I, hp, hI⟩
  · have hlen : ¬ 0 < req.duration.length := by rw [hd]; decide
    simp [PostSink, hp, hlen]
  · have hI' : ¬ 0 < I := by omega
    simp [PostSink, hp, hI']

theorem postSink_paced (env : Env) (req : Request) (st : State) (I : Int)
    (hp : env.parseDuration req.duration = Except.ok I) (hI : 0 < I) :
    PostSink env req st =
      (((pacedLoop env I (env.atoiValue req.contentLength)
          (divider (env.atoiValue req.contentLength)) req.body 0 0 st).2).emit
        [Event.string 200 ("received " ++
          toString (pacedLoop env I (env.atoiValue req.contentLength)
            (divider (env.atoiValue req.contentLength)) req.body 0 0 st).1 ++ " bytes\n")]).emit
        [Event.close] := by
  simp [PostSink, hp, hI]

theorem performed_cons_stop (r : ReadResult) (rest : List ReadResult)
    (h : r.n = 0 ∨ r.err.isSome = true) : performed (r :: rest) = [r] := by
  simp [performed, h]

theorem performed_cons_go (r : ReadResult) (rest : List ReadResult)
    (h0 : r.n ≠ 0) (he : ¬ r.err.isSome = true) :
    performed (r :: rest) = r :: performed rest := by
  simp [performed, h0, he]

/-- The un-paced loop performs the reads of `performed` and counts their bytes. -/
theorem plainLoop_spec : ∀ (script : List ReadResult) (readCtr : Int) (st : State),
    plainLoop script readCtr st =
      (readCtr + (((performed script).map ReadResult.n).sum : Nat),
       st.emit ((performed script).map Event.read)) := by
  intro script
  induction script with
  | nil => intro readCtr st; simp [plainLoop, performed]
  | cons r rest ih =>
    intro readCtr st
    by_cases h0 : r.n = 0
    · simp [plainLoop, performed, h0]
    · by_cases he : r.err.isSome = true
      · simp [plainLoop, performed, h0, he]
      · rw [performed_cons_go r rest h0 he]
        simp only [plainLoop, h0, he, if_false]
        rw [ih, emit_emit]
        simp only [List.map_cons, List.sum_cons, List.singleton_append]
        push_cast
        rw [add_assoc]

theorem tmod_cast_eq_zero (k d : Nat) : ((k : Int) + 1).tmod (d : Int) = 0 ↔ (k + 1) % d = 0 := by
  have e : ((k : Int) + 1) = ((k + 1 : Nat) : Int) := by push_cast; rfl
  rw [e, ← Int.ofNat_tmod]
  exact Int.natCast_eq_zero

theorem divider_cast (S : Nat) : divider (S : Int) = ((specDivider S : Nat) : Int) := by
  have e : (S : Int).tdiv (10 * 1024) = ((S / (10 * 1024) : Nat) : Int) := by
    rw [Int.ofNat_tdiv]; norm_num
  unfold divider specDivider
  simp only [e]
  split
  · rename_i h
    have : S / (10 * 1024) = 0 := by omega
    simp [this]
  · rename_i h
    have : 1 ≤ S / (10 * 1024) := by omega
    simp [max_eq_right this]

theorem progressLine_cast (R S : Nat) : progressLine (R : Int) (S : Int) = specProgressLine R S :=
  rfl

theorem bytesThrough_append_cons (pre : List ReadResult) (r : ReadResult)
    (tail : List ReadResult) :
    bytesThrough (pre ++ r :: tail) (pre.length + 1) = (pre.map ReadResult.n).sum + r.n := by
  unfold bytesThrough
  rw [List.take_append]
  simp

theorem pacedLoop_cons (env : Env) (I size d : Int) (r : ReadResult) (rest : List ReadResult)
    (idx R : Int) (st : State) :
    pacedLoop env I size d (r :: rest) idx R st =
      if r.n = 0 then (R + r.n, st.emit [Event.read r])
      else if r.err.isSome = true then
        (R + r.n, timeSleep env I
          (if (idx + 1).tmod d = 0 then
            ((writerWrite env (progressLine (R + r.n) size) (st.emit [Event.read r])).1).emit
              [Event.flush]
           else st.emit [Event.read r]))
      else
        pacedLoop env I size d rest (idx + 1) (R + r.n) (timeSleep env I
          (if (idx + 1).tmod d = 0 then
            ((writerWrite env (progressLine (R + r.n) size) (st.emit [Event.read r])).1).emit
              [Event.flush]
           else st.emit [Event.read r])) := by
  simp only [pacedLoop]

/-- One round of the paced loop after a non-empty read, against the words of the
specification. -/
theorem pacedStep_trace (env : Env) (I : Int) (S k R : Nat) (r : ReadResult) (st : State)
    (reads : List ReadResult) (h0 : r.n ≠ 0) (hb : bytesThrough reads (k + 1) = R + r.n) :
    (timeSleep env I
      (if ((k : Int) + 1).tmod ((specDivider S : Nat) : Int) = 0 then
        ((writerWrite env (progressLine ((R : Int) + (r.n : Nat)) (S : Int))
          (st.emit [Event.read r])).1).emit [Event.flush]
       else st.emit [Event.read r])).trace =
      st.trace ++ specPacedStep I S reads (k + 1) r := by
  have hline : progressLine ((R : Int) + (r.n : Nat)) (S : Int) =
      specProgressLine (R + r.n) S := by
    rw [← progressLine_cast]; push_cast; rfl
  by_cases hk : (k + 1) % specDivider S = 0
  · have hk' : ((k : Int) + 1).tmod ((specDivider S : Nat) : Int) = 0 :=
      (tmod_cast_eq_zero k (specDivider S)).mpr hk
    rw [if_pos hk', hline]
    simp [specPacedStep, h0, hk, hb, State.emit, writerWrite, timeSleep]
  · have hk' : ¬ ((k : Int) + 1).tmod ((specDivider S : Nat) : Int) = 0 :=
      fun h => hk ((tmod_cast_eq_zero k (specDivider S)).mp h)
    rw [if_neg hk']
    simp [specPacedStep, h0, hk, State.emit, timeSleep]

/-- The paced loop, entered after the reads `pre`, does on the remaining reads
what the specification says for their positions in the whole sequence. -/
theorem pacedLoop_spec (env : Env) (I : Int) (S : Nat) :
    ∀ (script pre : List ReadResult) (st : State) (k R : Nat),
      k = pre.length → R = (pre.map ReadResult.n).sum →
      (pacedLoop env I (S : Int) ((specDivider S : Nat) : Int) script k R st).1 =
        ((R + ((performed script).map ReadResult.n).sum : Nat) : Int) ∧
      (pacedLoop env I (S : Int) ((specDivider S : Nat) : Int) script k R st).2.trace =
        st.trace ++ (List.enumFrom k (performed script)).flatMap
          (fun p => specPacedStep I S (pre ++ performed script) (p.1 + 1) p.2) := by
  intro script
  induction script with
  | nil =>
    intro pre st k R _ _
    simp [pacedLoop, performed, specPacedStep, State.emit]
  | cons r rest ih =>
    intro pre st k R hk hR
    rw [pacedLoop_cons]
    by_cases h0 : r.n = 0
    · rw [performed_cons_stop r rest (Or.inl h0), if_pos h0]
      simp [h0, specPacedStep, State.emit]
    · rw [if_neg h0]
      by_cases he : r.err.isSome = true
      · rw [performed_cons_stop r rest (Or.inr he), if_pos he]
        constructor
        · simp
        · have hb : bytesThrough (pre ++ [r]) (k + 1) = R + r.n := by
            rw [hk, hR]; exact bytesThrough_append_cons pre r []
          rw [List.enumFrom_singleton, List.flatMap_singleton]
          exact pacedStep_trace env I S k R r st _ h0 hb
      · rw [performed_cons_go r rest h0 he, if_neg he]
        have hb : bytesThrough (pre ++ r :: performed rest) (k + 1) = R + r.n := by
          rw [hk, hR]; exact bytesThrough_append_cons pre r _
        have hstep := pacedStep_trace env I S k R r st (pre ++ r :: performed rest) h0 hb
        have e1 : ((k : Int) + 1) = ((k + 1 : Nat) : Int) := by push_cast; rfl
        have e2 : ((R : Int) + (r.n : Nat)) = ((R + r.n : Nat) : Int) := by push_cast; rfl
        have happ : pre ++ r :: performed rest = (pre ++ [r]) ++ performed rest := by simp
        have hih := ih (pre ++ [r])
          (timeSleep env I
            (if ((k : Int) + 1).tmod ((specDivider S : Nat) : Int) = 0 then
              ((writerWrite env (progressLine ((R : Int) + (r.n : Nat)) (S : Int))
                (st.emit [Event.read r])).1).emit [Event.flush]
             else st.emit [Event.read r]))
          (k + 1) (R + r.n) (by simp [hk]) (by simp [hR])
        rw [← e1, ← e2] at hih
        constructor
        · rw [hih.1]
          simp only [List.map_cons, List.sum_cons]
          congr 1
          omega
        · rw [hih.2, hstep, List.enumFrom_cons, List.flatMap_cons, happ, List.append_assoc]

theorem writtenChunks_reads (l : List ReadResult) : writtenChunks (l.map Event.read) = [] := by
  induction l with
  | nil => rfl
  | cons r l ih => simpa [writtenChunks] using ih

theorem responseStatus_reads (l : List ReadResult) (tail : List Event) :
    responseStatus (l.map Event.read ++ tail) = responseStatus tail := by
  induction l with
  | nil => rfl
  | cons r l ih => simpa [responseStatus] using ih

theorem plainBody_reads (l : List ReadResult) (tail : List Event) :
    plainBody (l.map Event.read ++ tail) = plainBody tail := by
  induction l with
  | nil => rfl
  | cons r l ih => simpa [plainBody] using ih

theorem performed_append_stop (goods : List ReadResult) (t : ReadResult)
    (rest : List ReadResult) (hg : ∀ r ∈ goods, r.n ≠ 0 ∧ r.err = none)
    (ht : t.n = 0 ∨ t.err.isSome = true) :
    performed (goods ++ t :: rest) = goods ++ [t] := by
  induction goods with
  | nil => exact performed_cons_stop t rest ht
  | cons r goods ih =>
    have hr := hg r (List.mem_cons_self _ _)
    rw [List.cons_append, performed_cons_go r _ hr.1 (by simp [hr.2]),
      ih (fun x hx => hg x (List.mem_cons_of_mem _ hx))]
    rfl

/-- The un-paced handler: the reads it performs, then the summary line. -/
theorem postSink_unpaced_trace (env : Env) (req : Request) (st : State)
    (hmode : (req.duration = "" ∧ ∃ msg, env.parseDuration req.duration = Except.error msg) ∨
      (∃ I, env.parseDuration req.duration = Except.ok I ∧ I ≤ 0)) :
    PostSink env req st =
      st.emit ((performed req.body).map Event.read ++
        [Event.string 200
          ("received " ++ toString ((performed req.body).map ReadResult.n).sum ++ " bytes\n"),
         Event.close]) := by
  rw [postSink_unpaced env req st hmode, plainLoop_spec, emit_emit, emit_emit]
  simp only [zero_add, List.append_assoc, List.singleton_append]
  rfl

/-- The paced handler: its trace is the one the specification describes. -/
theorem postSink_paced_trace (env : Env) (req : Request) (st : State) (S : Nat) (I : Int)
    (hS : env.atoiValue req.contentLength = (S : Int))
    (hp : env.parseDuration req.duration = Except.ok I) (hI : 0 < I) :
    (PostSink env req st).trace =
      st.trace ++ specPacedTrace I S (performed req.body) ++
        [Event.string 200
          ("received " ++ toString ((performed req.body).map ReadResult.n).sum ++ " bytes\n"),
         Event.close] := by
  have h := pacedLoop_spec env I S req.body [] st 0 0 rfl rfl
  simp only [Nat.cast_zero, zero_add, List.nil_append] at h
  rw [postSink_paced env req st I hp hI, hS, divider_cast]
  simp only [State.emit]
  rw [h.1, h.2]
  simp only [specPacedTrace, List.enum, List.append_assoc, List.singleton_append]
  rfl

/-- Number of progress lines of the paced loop on reads that all return data,
followed by the end of the body. -/
theorem pacedLoop_count (env : Env) (I size : Int) (d : Nat) (e : Option ReadErr) :
    ∀ (goods : List ReadResult) (k : Nat) (R : Int) (st : State),
      (∀ r ∈ goods, r.n ≠ 0 ∧ r.err = none) →
      (writtenChunks (pacedLoop env I size (d : Int) (goods ++ [⟨0, e⟩]) k R st).2.trace).length =
        (writtenChunks st.trace).length + ((k + goods.length) / d - k / d) := by
  intro goods
  induction goods with
  | nil =>
    intro k R st _
    rw [List.nil_append, pacedLoop_cons]
    simp [State.emit, writtenChunks_append, writtenChunks]
  | cons r goods ih =>
    intro k R st hg
    have hr := hg r (List.mem_cons_self _ _)
    have e1 : ((k : Int) + 1) = ((k + 1 : Nat) : Int) := by push_cast; rfl
    rw [List.cons_append, pacedLoop_cons, if_neg hr.1, if_neg (by simp [hr.2]), e1,
      ih (k + 1) _ _ (fun x hx => hg x (List.mem_cons_of_mem _ hx))]
    have hdiv := Nat.succ_div k d
    have hmono : (k + 1) / d ≤ (k + 1 + goods.length) / d :=
      Nat.div_le_div_right (Nat.le_add_right _ _)
    have hlen : k + (r :: goods).length = k + 1 + goods.length := by
      simp only [List.length_cons]; omega
    rw [hlen]
    by_cases hk : (k + 1) % d = 0
    · have hk' : (((k + 1 : Nat) : Int)).tmod (d : Int) = 0 := by
        rw [← e1]; exact (tmod_cast_eq_zero k d).mpr hk
      have hdvd : d ∣ k + 1 := Nat.dvd_of_mod_eq_zero hk
      rw [if_pos hdvd] at hdiv
      rw [if_pos hk']
      simp only [timeSleep, State.emit, writerWrite, writtenChunks_append, writtenChunks,
        List.length_append, List.length_cons, List.length_nil]
      omega
    · have hk' : ¬ (((k + 1 : Nat) : Int)).tmod (d : Int) = 0 := by
        rw [← e1]; exact fun h => hk ((tmod_cast_eq_zero k d).mp h)
      have hdvd : ¬ d ∣ k + 1 := fun h => hk (Nat.mod_eq_zero_of_dvd h)
      rw [if_neg hdvd] at hdiv
      rw [if_neg hk']
      simp only [timeSleep, State.emit, writtenChunks_append, writtenChunks,
        List.length_append, List.length_cons, List.length_nil]
      omega

theorem fullReads_length (S : Nat) : (fullReads S).length = (S + 1023) / 1024 := by
  unfold fullReads
  split <;> simp <;> omega

theorem fullReads_good (S : Nat) : ∀ r ∈ fullReads S, r.n ≠ 0 ∧ r.err = none := by
  intro r hr
  unfold fullReads at hr
  rw [List.mem_append] at hr
  rcases hr with hr | hr
  · rw [List.eq_of_mem_replicate hr]
    exact ⟨by decide, rfl⟩
  · split at hr
    · simp at hr
    · rename_i h
      simp only [List.mem_singleton] at hr
      rw [hr]
      exact ⟨h, rfl⟩

/-- The number of reports `⌈S / 1024⌉ / D` never exceeds 20. -/
theorem reports_le (S : Nat) : (S + 1023) / 1024 / specDivider S ≤ 20 := by
  apply Nat.div_le_of_le_mul
  unfold specDivider
  by_cases h : S / (10 * 1024) = 0
  · rw [h]
    simp only [Nat.zero_le, max_eq_left]
    omega
  · have h1 : 1 ≤ S / (10 * 1024) := by omega
    rw [max_eq_right h1]
    omega

theorem writtenChunks_specPacedStep (I : Int) (S : Nat) (reads : List ReadResult) (k : Nat)
    (r : ReadResult) :
    writtenChunks (specPacedStep I S reads k r) =
      if r.n ≠ 0 ∧ k % specDivider S = 0 then
        [specProgressLine (bytesThrough reads k) S]
      else [] := by
  by_cases h0 : r.n = 0
  · simp [specPacedStep, h0, writtenChunks]
  · by_cases hk : k % specDivider S = 0
    · simp [specPacedStep, h0, hk, writtenChunks]
    · simp [specPacedStep, h0, hk, writtenChunks]

/-- The writes of the specification trace are the specification's progress lines. -/
theorem writtenChunks_specPacedTrace (I : Int) (S : Nat) (reads : List ReadResult) :
    writtenChunks (specPacedTrace I S reads) = specProgressLines S reads := by
  unfold specPacedTrace specProgressLines
  generalize reads.enum = l
  induction l with
  | nil => rfl
  | cons p l ih =>
    rw [List.flatMap_cons, writtenChunks_append, ih, writtenChunks_specPacedStep,
      List.filterMap_cons]
    by_cases hc : p.2.n ≠ 0 ∧ (p.1 + 1) % specDivider S = 0
    · simp only [hc, and_self, ne_eq, not_false_eq_true, if_true]
      rfl
    · simp only [hc, if_false]
      rfl

/-! ## Claims on `PostSink` -/

/-- C3: un-paced `PostSink` (no duration parameter, or a duration that parses to
at most zero) on a body delivered as non-empty reads `chunks`, ended by a read
that returns an error `e` (end-of-file or not) together with the possibly empty
data `last`: the handler performs exactly these reads, then answers with status
200 and the single line `received N bytes`, `N` being the number of bytes
delivered; nothing else is done, whatever the error. -/
theorem postSink_received (env : Env) (req : Request) (st : State)
    (chunks : List (List UInt8)) (last : List UInt8) (e : ReadErr) (rest : List ReadResult)
    (hmode : (req.duration = "" ∧ ∃ msg, env.parseDuration req.duration = Except.error msg) ∨
      (∃ I, env.parseDuration req.duration = Except.ok I ∧ I ≤ 0))
    (hne : ∀ c ∈ chunks, c ≠ [])
    (hb : req.body = chunks.map dataRead ++ lastRead last e :: rest) :
    PostSink env req st =
      st.emit ((chunks.map dataRead ++ [lastRead last e]).map Event.read ++
        [Event.string 200
          ("received " ++ toString (chunks.flatten ++ last).length ++ " bytes\n"),
         Event.close]) ∧
    responseStatus ((chunks.map dataRead ++ [lastRead last e]).map Event.read ++
        [Event.string 200
          ("received " ++ toString (chunks.flatten ++ last).length ++ " bytes\n"),
         Event.close]) = some 200 ∧
    plainBody ((chunks.map dataRead ++ [lastRead last e]).map Event.read ++
        [Event.string 200
          ("received " ++ toString (chunks.flatten ++ last).length ++ " bytes\n"),
         Event.close]) =
      "received " ++ toString (chunks.flatten ++ last).length ++ " bytes\n" := by
  have hperf : performed req.body = chunks.map dataRead ++ [lastRead last e] := by
    rw [hb]
    apply performed_append_stop
    · intro r hr
      rw [List.mem_map] at hr
      obtain ⟨c, hc, rfl⟩ := hr
      exact ⟨fun h => hne c hc (List.length_eq_zero.mp h), rfl⟩
    · exact Or.inr rfl
  have hsum : ((chunks.map dataRead ++ [lastRead last e]).map ReadResult.n).sum =
      (chunks.flatten ++ last).length := by
    simp [List.length_flatten, Function.comp_def, dataRead, lastRead]
  refine ⟨?_, ?_, ?_⟩
  · rw [postSink_unpaced_trace env req st hmode, hperf, hsum]
  · rw [responseStatus_reads]; rfl
  · rw [plainBody_reads]
    simp [plainBody]

/-- Witness for C3: a body of 5 bytes posted to `/post` and delivered in two reads. -/
theorem postSink_received_witness :
    PostSink sampleEnv ⟨"", "", [⟨3, none⟩, ⟨2, none⟩, ⟨0, some ReadErr.eof⟩]⟩ idle =
      idle.emit [Event.read ⟨3, none⟩, Event.read ⟨2, none⟩,
        Event.read ⟨0, some ReadErr.eof⟩,
        Event.string 200 "received 5 bytes\n", Event.close] :=
  (postSink_received sampleEnv
    ⟨"", "", [⟨3, none⟩, ⟨2, none⟩, ⟨0, some ReadErr.eof⟩]⟩ idle
    [[104, 116, 116], [112, 10]] [] ReadErr.eof []
    (Or.inl ⟨rfl, _, rfl⟩) (by decide) rfl).1

/-- C4, amended: when the duration parser rejects the path parameter,
`SlowRequest` does nothing but render the error template with status 400 and the
message `bad time: ` followed by the parser's message; `PostSink` does the same
when the parameter is not empty, and treats an empty parameter as un-paced mode
(it reads the body and answers 200). -/
theorem rejected_duration (env : Env) (req : Request) (st : State) (msg : String)
    (hp : env.parseDuration req.duration = Except.error msg) :
    (∀ fuel, SlowRequest env fuel req st =
      some (st.emit [Event.html 400 "error.tmpl" [("msg", "bad time: " ++ msg)]])) ∧
    (req.duration ≠ "" → PostSink env req st =
      st.emit [Event.html 400 "error.tmpl" [("msg", "bad time: " ++ msg)]]) ∧
    responseStatus [Event.html 400 "error.tmpl" [("msg", "bad time: " ++ msg)]] = some 400 ∧
    (req.duration = "" → PostSink env req st =
      st.emit ((performed req.body).map Event.read ++
        [Event.string 200
          ("received " ++ toString ((performed req.body).map ReadResult.n).sum ++ " bytes\n"),
         Event.close])) :=
  ⟨fun fuel => slowRequest_rejected env fuel req st msg hp,
   fun hd => postSink_rejected env req st msg hp hd,
   rfl,
   fun hd => postSink_unpaced_trace env req st (Or.inl ⟨hd, msg, hp⟩)⟩

/-- Witness for C4 (amended): the parameter `bogus`. -/
theorem rejected_duration_witness :
    SlowRequest sampleEnv 0 ⟨"bogus", "", []⟩ idle =
      some (idle.emit [Event.html 400 "error.tmpl"
        [("msg", "bad time: time: invalid duration \"bogus\"")]]) ∧
    PostSink sampleEnv ⟨"bogus", "", []⟩ idle =
      idle.emit [Event.html 400 "error.tmpl"
        [("msg", "bad time: time: invalid duration \"bogus\"")]] :=
  ⟨(rejected_duration sampleEnv ⟨"bogus", "", []⟩ idle _ rfl).1 0,
   (rejected_duration sampleEnv ⟨"bogus", "", []⟩ idle _ rfl).2.1 (by decide)⟩

/-- Counterexample to C4 as stated: the parser rejects the empty string, yet
`PostSink` called with the empty parameter reads the body and answers 200. -/
theorem rejected_duration_counterexample :
    sampleEnv.parseDuration "" = Except.error "time: invalid duration \"\"" ∧
    PostSink sampleEnv ⟨"", "", []⟩ idle =
      idle.emit [Event.read ⟨0, some ReadErr.eof⟩,
        Event.string 200 "received 0 bytes\n", Event.close] ∧
    responseStatus (PostSink sampleEnv ⟨"", "", []⟩ idle).trace = some 200 ∧
    PostSink sampleEnv ⟨"", "", []⟩ idle ≠
      idle.emit [Event.html 400 "error.tmpl"
        [("msg", "bad time: time: invalid duration \"\"")]] := by
  refine ⟨rfl, by decide, by decide, by decide⟩

/-- C7: with `S` the integer read from `Content-Length` and `D = max(1, S / 10240)`,
paced `PostSink` (parsed interval above zero) does on the reads it performs what
`specPacedTrace` says: each read is followed, when it returned data, by the line
`progress R/S` and a flush exactly when its 1-indexed position `k` has
`k mod D = 0` (`R` the bytes read through read `k`), then by the sleep; the
summary line and the close end the trace.  So the writes of the request are
exactly the lines of `specProgressLines`, in order.  When the interval is not
above zero no write is made at all. -/
theorem postSink_progress (env : Env) (req : Request) (st : State) (S : Nat)
    (hS : env.atoiValue req.contentLength = (S : Int)) :
    (∀ I, env.parseDuration req.duration = Except.ok I → 0 < I →
      (PostSink env req st).trace =
        st.trace ++ specPacedTrace I S (performed req.body) ++
          [Event.string 200
            ("received " ++ toString ((performed req.body).map ReadResult.n).sum ++ " bytes\n"),
           Event.close] ∧
      writtenChunks (PostSink env req st).trace =
        writtenChunks st.trace ++ specProgressLines S (performed req.body)) ∧
    ((∀ I, env.parseDuration req.duration = Except.ok I → I ≤ 0) →
      writtenChunks (PostSink env req st).trace = writtenChunks st.trace) := by
  constructor
  · intro I hp hI
    have ht := postSink_paced_trace env req st S I hS hp hI
    refine ⟨ht, ?_⟩
    rw [ht, writtenChunks_append, writtenChunks_append, writtenChunks_specPacedTrace]
    simp [writtenChunks]
  · intro hun
    cases hp : env.parseDuration req.duration with
    | error msg =>
      by_cases hd : req.duration = ""
      · rw [postSink_unpaced_trace env req st (Or.inl ⟨hd, msg, hp⟩)]
        simp [State.emit, writtenChunks_append, writtenChunks_reads, writtenChunks]
      · rw [postSink_rejected env req st msg hp hd]
        simp [State.emit, writtenChunks_append, writtenChunks]
    | ok I =>
      rw [postSink_unpaced_trace env req st (Or.inr ⟨I, hp, hun I hp⟩)]
      simp [State.emit, writtenChunks_append, writtenChunks_reads, writtenChunks]

/-- Witness for C7: 2524 bytes in 3 reads, posted without `Content-Length` (so
`S = 0` and `D = 1`) and with a pacing of 10 ms: one progress line per read. -/
theorem postSink_progress_witness :
    writtenChunks
        (PostSink sampleEnv ⟨"10ms", "", [⟨1024, none⟩, ⟨1024, none⟩, ⟨476, none⟩]⟩ idle).trace =
      writtenChunks idle.trace ++
        specProgressLines 0 (performed [⟨1024, none⟩, ⟨1024, none⟩, ⟨476, none⟩]) ∧
    specProgressLines 0 (performed [⟨1024, none⟩, ⟨1024, none⟩, ⟨476, none⟩]) =
      ["progress 1024/0\n", "progress 2048/0\n", "progress 2524/0\n"] :=
  ⟨((postSink_progress sampleEnv
      ⟨"10ms", "", [⟨1024, none⟩, ⟨1024, none⟩, ⟨476, none⟩]⟩ idle 0 rfl).1
      10000000 rfl (by decide)).2,
   by decide⟩

/-- Number of progress lines written by paced `PostSink` on a body of `S` bytes
delivered in full reads. -/
theorem postSink_reports_count (env : Env) (req : Request) (st : State) (S : Nat) (I : Int)
    (hS : env.atoiValue req.contentLength = (S : Int))
    (hp : env.parseDuration req.duration = Except.ok I) (hI : 0 < I)
    (hb : req.body = fullReads S ++ [eofRead]) :
    (writtenChunks (PostSink env req st).trace).length =
      (writtenChunks st.trace).length + (S + 1023) / 1024 / specDivider S := by
  rw [postSink_paced env req st I hp hI, hS, divider_cast, hb]
  have h := pacedLoop_count env I (S : Int) (specDivider S) (some ReadErr.eof) (fullReads S) 0
    0 st (fullReads_good S)
  simp only [Nat.cast_zero, zero_add, Nat.zero_div, Nat.sub_zero, fullReads_length] at h
  simp only [State.emit, writtenChunks_append, List.length_append, eofRead, h]
  simp [writtenChunks]

/-- C8, amended: for a body of `S` bytes announced by `Content-Length: S` and
delivered in full 1024-byte reads (the last one possibly shorter) up to
end-of-file, paced `PostSink` writes `⌈S / 1024⌉ / D` progress lines with
`D = max(1, S / 10240)`, which is at most 20. -/
theorem postSink_reports (env : Env) (req : Request) (st : State) (S : Nat) (I : Int)
    (hS : env.atoiValue req.contentLength = (S : Int))
    (hp : env.parseDuration req.duration = Except.ok I) (hI : 0 < I)
    (hb : req.body = fullReads S ++ [eofRead]) :
    (writtenChunks (PostSink env req st).trace).length =
      (writtenChunks st.trace).length + (S + 1023) / 1024 / specDivider S ∧
    (S + 1023) / 1024 / specDivider S ≤ 20 :=
  ⟨postSink_reports_count env req st S I hS hp hI hb, reports_le S⟩

/-- Witness for C8 (amended): 10240 bytes posted with a pacing of 10 ms. -/
theorem postSink_reports_witness :
    (writtenChunks (PostSink sampleEnv
        ⟨"10ms", "10240", fullReads 10240 ++ [eofRead]⟩ idle).trace).length =
      (writtenChunks idle.trace).length + (10240 + 1023) / 1024 / specDivider 10240 ∧
    (10240 + 1023) / 1024 / specDivider 10240 ≤ 20 :=
  postSink_reports sampleEnv ⟨"10ms", "10240", fullReads 10240 ++ [eofRead]⟩
    idle 10240 10000000 rfl rfl (by decide) rfl

/-- Counterexample to C8 as stated: 11264 bytes (eleven full reads) posted with
`Content-Length: 11264` and a pacing of 10 ms give `D = 1` and eleven progress
lines. -/
theorem postSink_reports_counterexample :
    sampleEnv.atoiValue "11264" = 11264 ∧
    sampleEnv.parseDuration "10ms" = Except.ok 10000000 ∧
    fullReads 11264 = List.replicate 11 ⟨1024, none⟩ ∧
    (writtenChunks (PostSink sampleEnv
        ⟨"10ms", "11264", fullReads 11264 ++ [eofRead]⟩ idle).trace).length = 11 ∧
    ¬ (11 ≤ 10) := by
  refine ⟨rfl, rfl, by decide, ?_, by decide⟩
  rw [postSink_reports_count sampleEnv
    ⟨"10ms", "11264", fullReads 11264 ++ [eofRead]⟩ idle 11264 10000000
    rfl rfl (by decide) rfl]
  decide

/-! ## Claim on `New` -/

theorem serveChain_ginzap (route : HandlerFunc → State → Outcome) (rest : List HandlerFunc)
    (st : State) :
    serveChain route (HandlerFunc.ginzap :: rest) st =
      match serveChain route rest (st.emit [Event.logStart]) with
      | Outcome.done st => Outcome.done (st.emit [Event.logRecord])
      | o => o := by
  simp only [serveChain]

theorem serveChain_recovery (route : HandlerFunc → State → Outcome) (rest : List HandlerFunc)
    (st : State) :
    serveChain route (HandlerFunc.recovery :: rest) st =
      match serveChain route rest (st.emit [Event.recoverDefer]) with
      | Outcome.panicked st => Outcome.done (st.emit [Event.abort500])
      | o => o := by
  simp only [serveChain]

theorem serveChain_rateTick (route : HandlerFunc → State → Outcome) (rest : List HandlerFunc)
    (st : State) :
    serveChain route (HandlerFunc.rateTick :: rest) st =
      serveChain route rest (rateReqUpdate 1 st) := by
  simp only [serveChain]

theorem serveChain_route (route : HandlerFunc → State → Outcome) (hf : HandlerFunc)
    (hh : hf.isMiddleware = false) (st : State) :
    serveChain route [hf] st = route hf st := by
  cases hf <;> first
    | exact absurd hh (by decide)
    | (simp only [serveChain]; cases route _ st <;> rfl)

/-- Running the chain built by `New` around a route handler. -/
theorem serveChain_built (cfg : Config) (route : HandlerFunc → State → Outcome)
    (hf : HandlerFunc) (hh : hf.isMiddleware = false) (st : State) :
    serveChain route
        (((if cfg.LogHTTPRequests then [HandlerFunc.ginzap] else []) ++
          [HandlerFunc.recovery, HandlerFunc.rateTick]) ++ [hf]) st =
      chainExit cfg (route hf (chainEntry cfg st)) := by
  cases hlog : cfg.LogHTTPRequests
  · simp only [Bool.false_eq_true, if_false, List.nil_append, List.cons_append]
    rw [serveChain_recovery, serveChain_rateTick, serveChain_route route hf hh]
    simp only [chainEntry, chainExit, hlog, Bool.false_eq_true, if_false]
    cases route hf _ <;> rfl
  · simp only [if_true, List.nil_append, List.cons_append]
    rw [serveChain_ginzap, serveChain_recovery, serveChain_rateTick,
      serveChain_route route hf hh]
    simp only [chainEntry, chainExit, hlog, if_true]
    cases route hf _ <;> rfl

/-- The engine built by a successful `New`: middlewares, routing table and 404 chain. -/
theorem new_engine (cfg : Config) (b : WebBackend) (h : New cfg none = NewResult.ok b) :
    b.r.Handlers =
      (if cfg.LogHTTPRequests then [HandlerFunc.ginzap] else []) ++
        [HandlerFunc.recovery, HandlerFunc.rateTick] ∧
    b.r.trees =
      [("GET", "/_status/health", b.r.Handlers ++ [HandlerFunc.healthcheck]),
       ("HEAD", "/_status/health", b.r.Handlers ++ [HandlerFunc.healthcheck]),
       ("GET", "/_status/metrics", b.r.Handlers ++ [HandlerFunc.metrics]),
       ("GET", "/s/*filepath", b.r.Handlers ++ [HandlerFunc.static]),
       ("GET", "/", b.r.Handlers ++ [HandlerFunc.index]),
       ("GET", "/slow/:duration", b.r.Handlers ++ [HandlerFunc.slowRequest]),
       ("POST", "/post", b.r.Handlers ++ [HandlerFunc.postSink]),
       ("POST", "/post/:duration", b.r.Handlers ++ [HandlerFunc.postSink]),
       ("GET", "/routes", b.r.Handlers ++ [HandlerFunc.routes])] ∧
    b.r.allNoRoute = b.r.Handlers ++ [HandlerFunc.notFound] := by
  unfold New at h
  split at h
  · cases h
  · split at h
    · cases h
    · simp only at h
      cases h
      cases hlog : cfg.LogHTTPRequests <;>
        simp [Engine.Use, Engine.handle, Engine.NoRoute, ginNew]

/-- C9, amended: the chain built by `New` is, outermost first, the request log
(only when `LogHTTPRequests` is set), the panic recovery, the rate tick; every
registered route and the no-route chain start with these middlewares.  Hence a
request served through such a chain enters the log and the recovery first,
updates `conn.rate` by 1 exactly once, right before its route handler runs, and
the outcome of the handler then goes back through recovery and log. -/
theorem new_middleware_chain (cfg : Config) (b : WebBackend)
    (h : New cfg none = NewResult.ok b) :
    b.r.Handlers =
      (if cfg.LogHTTPRequests then [HandlerFunc.ginzap] else []) ++
        [HandlerFunc.recovery, HandlerFunc.rateTick] ∧
    (∀ entry ∈ b.r.trees, ∃ hf, hf.isMiddleware = false ∧
      entry.2.2 = b.r.Handlers ++ [hf]) ∧
    b.r.allNoRoute = b.r.Handlers ++ [HandlerFunc.notFound] ∧
    (∀ (route : HandlerFunc → State → Outcome) (hf : HandlerFunc) (st : State),
      hf.isMiddleware = false →
      serveChain route (b.r.Handlers ++ [hf]) st =
        chainExit cfg (route hf (chainEntry cfg st))) ∧
    (∀ st, (chainEntry cfg st).rate = st.rate + 1 ∧
      (chainEntry cfg st).trace = st.trace ++
        ((if cfg.LogHTTPRequests then [Event.logStart] else []) ++
          [Event.recoverDefer, Event.rateUpdate 1])) := by
  obtain ⟨h1, h2, h3⟩ := new_engine cfg b h
  refine ⟨h1, ?_, h3, ?_, ?_⟩
  · intro entry hentry
    rw [h2] at hentry
    simp only [List.mem_cons, List.mem_singleton, List.not_mem_nil, or_false] at hentry
    rcases hentry with rfl | rfl | rfl | rfl | rfl | rfl | rfl | rfl | rfl
    · exact ⟨HandlerFunc.healthcheck, rfl, rfl⟩
    · exact ⟨HandlerFunc.healthcheck, rfl, rfl⟩
    · exact ⟨HandlerFunc.metrics, rfl, rfl⟩
    · exact ⟨HandlerFunc.static, rfl, rfl⟩
    · exact ⟨HandlerFunc.index, rfl, rfl⟩
    · exact ⟨HandlerFunc.slowRequest, rfl, rfl⟩
    · exact ⟨HandlerFunc.postSink, rfl, rfl⟩
    · exact ⟨HandlerFunc.postSink, rfl, rfl⟩
    · exact ⟨HandlerFunc.routes, rfl, rfl⟩
  · intro route hf st hhf
    rw [h1]
    exact serveChain_built cfg route hf hhf st
  · intro st
    cases hlog : cfg.LogHTTPRequests <;> simp [chainEntry, rateReqUpdate, State.emit, hlog]

/-- Witness for C9 (amended): the configuration of `main` with request logging. -/
theorem new_middleware_chain_witness :
    ∃ b, New sampleConfig none = NewResult.ok b ∧
      b.r.Handlers = [HandlerFunc.ginzap, HandlerFunc.recovery, HandlerFunc.rateTick] := by
  have hok : ∃ b, New sampleConfig none = NewResult.ok b := ⟨_, rfl⟩
  obtain ⟨b, hb⟩ := hok
  exact ⟨b, hb, (new_middleware_chain sampleConfig b hb).1⟩

/-- Counterexample to C9 as stated: with request logging on, the chain built by
`New` is log, recovery, rate tick, not the claimed rate tick, log, recovery; a
request served through it has entered the log and the recovery middlewares
before `conn.rate` is updated. -/
theorem new_middleware_chain_counterexample :
    ∃ b, New sampleConfig none = NewResult.ok b ∧
      b.r.Handlers = [HandlerFunc.ginzap, HandlerFunc.recovery, HandlerFunc.rateTick] ∧
      specChain sampleConfig =
        [HandlerFunc.rateTick, HandlerFunc.ginzap, HandlerFunc.recovery] ∧
      b.r.Handlers ≠ specChain sampleConfig ∧
      serveChain (fun _ st => Outcome.done st) (b.r.Handlers ++ [HandlerFunc.slowRequest]) idle =
        Outcome.done { idle with
          rate := 1
          trace := [Event.logStart, Event.recoverDefer, Event.rateUpdate 1, Event.logRecord] } :=
  ⟨_, rfl, by decide, by decide, by decide, by decide⟩

end HttpDummy
